import Mathlib

/-!
# klaus: a static site generator (`klaus.go`)

A shallow embedding of the three pipelines of `klaus.go`: the tree walk callback
of `main` (classification by extension, counters, mirrored output paths), the
markdown pipeline (preamble split by regular-expression offsets, template
substitution) and the size computation of `resizeJPEG`.

Byte strings (`[]byte` and Go `string`) are lists of byte values (`List Nat`).
Library calls whose result the development does not depend on (the YAML parser,
the markdown converter) are parameters of the model.
-/

set_option maxRecDepth 100000

namespace Klaus

/-! ## Bytes and Go slices -/

/-- The bytes of an ASCII string literal. -/
def bytesOf (s : String) : List Nat := s.toList.map Char.toNat

/-- The ways in which the program stops before the walk has finished. -/
inductive Abort where
  /-- `log.Fatal(err)` after a failed open, read, stat or write. -/
  | fatalErr
  /-- `log.Fatal("Your markdown files must have a section separated by --- and ---. ...")`. -/
  | missingPreamble
  /-- `log.Fatalf("error: %v", err)` after `yaml.Unmarshal` failed. -/
  | yamlError
  /-- Run-time panic: slice bounds out of range. -/
  | sliceBounds
  /-- Run-time panic: index out of range (indexing the nil result of `FindIndex`). -/
  | indexRange
  /-- Run-time panic: nil pointer dereference (`src.Bounds()` on a nil image). -/
  | nilDeref
  deriving DecidableEq, Repr

deriving instance DecidableEq for Except

/-- A Go byte slice: its elements `s[0], ..., s[len-1]`, and the elements of the
backing array between the length and the capacity. -/
structure GoSlice where
  data : List Nat
  spare : List Nat
  deriving DecidableEq, Repr

namespace GoSlice

/-- Go `len(s)`. -/
def len (s : GoSlice) : Nat := s.data.length

/-- Go `cap(s)`. -/
def cap (s : GoSlice) : Nat := s.data.length + s.spare.length

/-- The slice expression `s[lo:hi]` (its elements): for a slice operand the upper
bound is the capacity, `0 <= lo <= hi <= cap(s)`, otherwise the program panics. -/
def slice (s : GoSlice) (lo hi : Nat) : Except Abort (List Nat) :=
  if lo ≤ hi ∧ hi ≤ s.cap then .ok (((s.data ++ s.spare).take hi).drop lo)
  else .error .sliceBounds

/-- The slice expression `s[lo:]`: the upper bound defaults to `len(s)`, so
`lo <= len(s)` is required. -/
def sliceFrom (s : GoSlice) (lo : Nat) : Except Abort (List Nat) :=
  if lo ≤ s.len then .ok (s.data.drop lo) else .error .sliceBounds

end GoSlice

/-- Source `getFileContents`: `os.Open` then `ioutil.ReadAll`; either failing ends
the program with `log.Fatal(err)`. The argument is what reading the file yields
(`none` when the file cannot be opened or read). `ReadAll` reads into
`make([]byte, 0, 512)` and grows it when full, so the result has capacity at
least 512 and the backing array holds zero bytes past the length. The capacity
of a longer file is taken to be its length: the only slice expression of the
program that can reach past the length is `contentBytes[0:3]` on a file shorter
than three bytes. -/
def getFileContents (file : Option (List Nat)) : Except Abort GoSlice :=
  match file with
  | none => .error .fatalErr
  | some bytes => .ok { data := bytes, spare := List.replicate (512 - bytes.length) 0 }

/-! ## The regular expression `(?m)^---.*` -/

/-- The three bytes `---`. -/
def dashes : List Nat := [45, 45, 45]

/-- Number of bytes before the next newline (what `.*` consumes: `.` matches every
character but `\n`). -/
def lineLen : List Nat → Nat
  | [] => 0
  | c :: cs => if c = 10 then 0 else lineLen cs + 1

/-- Leftmost match of `(?m)^---.*` in the text that follows position `i`; `bol`
says whether position `i` is the beginning of the text or follows a `\n`. -/
def findIndexFrom : Bool → Nat → List Nat → Option (Nat × Nat)
  | _, _, [] => none
  | bol, i, c :: cs =>
    if bol && dashes.isPrefixOf (c :: cs) then
      some (i, i + 3 + lineLen ((c :: cs).drop 3))
    else findIndexFrom (c == 10) (i + 1) cs

/-- Source `re.FindIndex(b)` for `re = regexp.MustCompile("(?m)^---.*")`: the start
and end offsets of the leftmost match, `none` (Go `nil`) when there is none. -/
def findIndex (b : List Nat) : Option (Nat × Nat) := findIndexFrom true 0 b

/-- Indexing `loc[0]` of a `FindIndex` result: panics on `nil`. -/
def locStart (loc : Option (Nat × Nat)) : Except Abort Nat :=
  match loc with
  | none => .error .indexRange
  | some (a, _) => .ok a

/-! ## `strings.Trim` and `ReplaceAll` -/

/-- Membership in the cutset `"\n\r\t "`. -/
def isCut (c : Nat) : Bool := c == 10 || c == 13 || c == 9 || c == 32

/-- Source `strings.Trim(s, "\n\r\t ")`: leading and trailing cutset bytes removed. -/
def trim (s : List Nat) : List Nat :=
  ((s.dropWhile isCut).reverse.dropWhile isCut).reverse

/-- Scanner behind `ReplaceAll`: `skip` counts the bytes of the current match
still to be passed over; with `skip = 0` a match of `old` at the current byte is
replaced by `new` and scanning resumes behind the match. -/
def replaceAllAux (old new : List Nat) : Nat → List Nat → List Nat
  | _, [] => []
  | skip + 1, _ :: cs => replaceAllAux old new skip cs
  | 0, c :: cs =>
    if old.isPrefixOf (c :: cs) then new ++ replaceAllAux old new (old.length - 1) cs
    else c :: replaceAllAux old new 0 cs

/-- Source `strings.ReplaceAll(s, old, new)` and `bytes.ReplaceAll(s, old, new)`
for a non-empty `old` (both call sites pass a seven- or six-byte literal): every
non-overlapping occurrence of `old`, found left to right, is replaced by `new`. -/
def replaceAll (s old new : List Nat) : List Nat := replaceAllAux old new 0 s

/-- The placeholder `{TITLE}`. -/
def TITLE : List Nat := [123, 84, 73, 84, 76, 69, 125]

/-- The placeholder `{BODY}`. -/
def BODY : List Nat := [123, 66, 79, 68, 89, 125]

/-- Lines 158 and 165 of `main`: `{TITLE}` is replaced in the template, then
`{BODY}` is replaced in the result of the first replacement. -/
def substitute (templateBytes title markdownInHTML : List Nat) : List Nat :=
  replaceAll (replaceAll templateBytes TITLE title) BODY markdownInHTML

/-! ## The markdown pipeline -/

/-- What lines 141-157 of `main` extract from a document. -/
structure Preamble where
  yamlStart : Nat
  yamlEnd : Nat
  yamlBytes : List Nat
  markdownBytes : List Nat
  deriving DecidableEq, Repr

/-- Lines 141-150 of `main`: `yamlStart`, `yamlEnd` and `yamlBytes`. -/
def yamlSection (contentBytes : GoSlice) : Except Abort (Nat × Nat × List Nat) := do
  let first ← contentBytes.slice 0 3
  if first ≠ dashes then
    throw .missingPreamble
  else
    let loc0 ← locStart (findIndex contentBytes.data)
    let yamlStart := loc0 + 3
    let everythingAfterYamlStart ← contentBytes.sliceFrom (yamlStart + 3)
    let loc2 ← locStart (findIndex everythingAfterYamlStart)
    let yamlEnd := loc2 + 5
    let between ← contentBytes.slice yamlStart yamlEnd
    return (yamlStart, yamlEnd, trim between)

/-- Lines 141-150 and 157 of `main`, without the YAML parse between them. -/
def splitPreamble (contentBytes : GoSlice) : Except Abort Preamble := do
  let (yamlStart, yamlEnd, yamlBytes) ← yamlSection contentBytes
  let markdownBytes ← contentBytes.sliceFrom yamlEnd
  return { yamlStart := yamlStart, yamlEnd := yamlEnd,
           yamlBytes := yamlBytes, markdownBytes := markdownBytes }

/-- The `.md` branch of the walk callback up to `finalHTML` (lines 136-165).
`unmarshal` stands for `yaml.Unmarshal` into `ContentYAML` (the title, or `none`
on a parse error); `toHTML` for `markdown.ToHTML(markdown.NormalizeNewlines(..))`. -/
def renderMarkdown (unmarshal : List Nat → Option (List Nat)) (toHTML : List Nat → List Nat)
    (content template : Option (List Nat)) : Except Abort (List Nat) := do
  let contentBytes ← getFileContents content
  let templateBytes ← getFileContents template
  let (_, yamlEnd, yamlBytes) ← yamlSection contentBytes
  match unmarshal yamlBytes with
  | none => throw .yamlError
  | some title =>
    let markdownBytes ← contentBytes.sliceFrom yamlEnd
    return substitute templateBytes.data title (toHTML markdownBytes)

/-! ## The size computation of `resizeJPEG` -/

/-- Fuel-bounded binary logarithm. -/
def ilog2Aux : Nat → Nat → Nat
  | 0, _ => 0
  | fuel + 1, n => if 2 ≤ n then ilog2Aux fuel (n / 2) + 1 else 0

/-- Position of the leading bit: `2 ^ ilog2 n <= n < 2 ^ (ilog2 n + 1)` for `n > 0`. -/
def ilog2 (n : Nat) : Nat := ilog2Aux n n

/-- IEEE 754 binary64 rounding (to nearest, ties to even) of the positive rational
`p / q`, as a fraction `(numerator, denominator)` whose denominator is a power
of two. The quotient is scaled by a power of two into `[2^52, 2^53)`, rounded to
an integer, and scaled back. Overflow and subnormal results do not occur for the
magnitudes of `resizeJPEG` and are not modelled. -/
def round64 (p q : Nat) : Nat × Nat :=
  let bp := ilog2 p
  let bq := ilog2 q
  let c := if q * 2 ^ bp ≤ p * 2 ^ bq then bq else bq + 1
  let up := bp - (c + 52)
  let down := (c + 52) - bp
  let N := p * 2 ^ down
  let D := q * 2 ^ up
  let Q := N / D
  let R := N % D
  let n := if 2 * R < D then Q else if D < 2 * R then Q + 1 else if Q % 2 = 0 then Q else Q + 1
  (n * 2 ^ up, 2 ^ down)

/-- Lines 91-100 of `resizeJPEG` for a decoded image whose bounds are
`(0,0)-(W,H)`: `(newWidth, newHeight)`. The conversions `float64(maxSize)`,
`float64(src.Bounds().Max.X)` and `float64(src.Bounds().Max.Y)` are exact (the
dimensions of a JPEG are below `2^16`); the quotient and the two products are
rounded to binary64; `int(..)` truncates toward zero. -/
def resizeDims (W H : Nat) : Nat × Nat :=
  let maxSize := 1000
  let portrait : Bool := H > W
  let scaleRatio := if portrait then round64 maxSize H else round64 maxSize W
  let w := round64 (W * scaleRatio.1) scaleRatio.2
  let h := round64 (H * scaleRatio.1) scaleRatio.2
  (w.1 / w.2, h.1 / h.2)

/-- The target size as the specification words it, in exact arithmetic: the
ratio is `1000 / H` when `H > W` and `1000 / W` otherwise, and the target
dimensions are `⌊W * ratio⌋` and `⌊H * ratio⌋`. -/
def specDims (W H : Nat) : Nat × Nat :=
  let ratio : ℚ := if H > W then 1000 / (H : ℚ) else 1000 / (W : ℚ)
  (⌊(W : ℚ) * ratio⌋₊, ⌊(H : ℚ) * ratio⌋₊)

/-! ## The walk callback -/

/-- Loop of `path.Ext`, from the last byte backwards: `acc` is the part of the
path already passed; the scan stops without an extension at a `/` or at the
beginning of the path, and returns the suffix that starts at the first `.` met. -/
def extScan : List Nat → List Nat → List Nat
  | _, [] => []
  | acc, c :: cs =>
    if c = 47 then [] else if c = 46 then c :: acc else extScan (c :: acc) cs

/-- Source `path.Ext(path)`: the suffix beginning at the final dot of the final
slash-separated element, empty when there is no dot. -/
def Ext (path : List Nat) : List Nat := extScan [] path.reverse

/-- Source `strings.ToLower(s)`: a string of ASCII bytes (all below
`utf8.RuneSelf`, 128) has `A`-`Z` replaced by `a`-`z`; any other string is
`strings.Map(unicode.ToLower, s)`, which is the parameter `lowerRunes`. -/
def toLower (lowerRunes : List Nat → List Nat) (s : List Nat) : List Nat :=
  if s.all (fun c => decide (c < 128)) then
    s.map fun c => if 65 ≤ c ∧ c ≤ 90 then c + 32 else c
  else lowerRunes s

/-- Go string slice `s[lo:hi]`: panics unless `lo <= hi <= len(s)`. -/
def strSlice (s : List Nat) (lo hi : Nat) : Except Abort (List Nat) :=
  if lo ≤ hi ∧ hi ≤ s.length then .ok ((s.take hi).drop lo) else .error .sliceBounds

/-- Go string slice `s[lo:]`. -/
def strSliceFrom (s : List Nat) (lo : Nat) : Except Abort (List Nat) :=
  strSlice s lo s.length

/-- Lines 167-168 (`.md` entries) and 178, 181 (all other entries): the output
path of a walked path. `len("content")+1` is 8. -/
def targetFilename (theFile : List Nat) : Except Abort (List Nat) :=
  let ext := Ext theFile
  if ext = bytesOf ".md" then do
    let stem ← strSlice theFile 8 (theFile.length - ext.length)
    return bytesOf "published/" ++ (stem ++ bytesOf ".html")
  else do
    let rel ← strSliceFrom theFile 8
    return bytesOf "published/" ++ rel

/-- What `os.Stat` says an entry is. -/
inductive Kind where
  | directory
  | regular
  | irregular
  deriving DecidableEq, Repr

/-- An entry handed to the callback by `filepath.WalkDir` with a nil error:
its path, the result of `os.Stat` on it (`none`: an error) and what reading it
yields (`none`: it cannot be opened or read, as for a directory). -/
structure Entry where
  theFile : List Nat
  stat : Option Kind
  bytes : Option (List Nat)
  deriving DecidableEq, Repr

/-- File-system effects of the callback, in program order. -/
inductive Effect where
  /-- `os.MkdirAll(filepath.Dir(target), 0770)`. -/
  | mkdirParent (target : List Nat)
  /-- `os.WriteFile(target, finalHTML, 0666)`. -/
  | writeFile (target finalHTML : List Nat)
  /-- A `resizeJPEG(src, target)` that decoded the source: the target is encoded
  with the size `newWidth` x `newHeight`. -/
  | resize (src target : List Nat) (newWidth newHeight : Nat)
  /-- `os.MkdirAll(target, 0770)`. -/
  | mkdirAll (target : List Nat)
  /-- A `copy(src, target)` that returned without error, with the bytes copied. -/
  | copied (src target : List Nat) (content : List Nat)
  deriving DecidableEq, Repr

/-- The counters of `main` and the effects so far. -/
structure State where
  markdownCount : Nat
  otherFileCount : Nat
  effects : List Effect
  deriving DecidableEq, Repr

/-- What the callback reads from outside the walked entry. -/
structure Env where
  /-- `yaml.Unmarshal` into `ContentYAML`: the title, `none` on a parse error. -/
  unmarshal : List Nat → Option (List Nat)
  /-- `markdown.ToHTML(markdown.NormalizeNewlines(..), parser, nil)`. -/
  toHTML : List Nat → List Nat
  /-- What reading `templates/main.html` yields. -/
  template : Option (List Nat)
  /-- Whether `os.WriteFile` on this path succeeds. -/
  writable : List Nat → Bool
  /-- `strings.Map(unicode.ToLower, s)` on a string with a non-ASCII byte. -/
  lowerRunes : List Nat → List Nat
  /-- `jpeg.Decode` on the bytes of a file: the width and height of the decoded
  image, `none` when the bytes are not a JPEG. -/
  decode : List Nat → Option (Nat × Nat)

/-- Source `copy(src, dst)` on a walked entry: an error (which the callback
drops) unless `os.Stat` succeeds, the source is a regular file and it can be
read; creating the destination is taken to succeed. -/
def copy (e : Entry) (dst : List Nat) : Option Effect :=
  match e.stat, e.bytes with
  | some .regular, some content => some (.copied e.theFile dst content)
  | _, _ => none

/-- Source `resizeJPEG(sourceFilename, destFilename)` on a walked entry. The
errors of `os.Open`, `os.Create` and `jpeg.Decode` are dropped: when the source
cannot be opened or is not a JPEG, `src` is nil and `src.Bounds()` on line 92
panics. Otherwise the target is encoded with the size of lines 91-100 (encoding
errors are dropped as well). -/
def resizeJPEG (decode : List Nat → Option (Nat × Nat)) (e : Entry)
    (destFilename : List Nat) : Except Abort Effect :=
  match e.bytes.bind decode with
  | none => .error .nilDeref
  | some (W, H) =>
    .ok (.resize e.theFile destFilename (resizeDims W H).1 (resizeDims W H).2)

/-- The callback passed to `filepath.WalkDir` (lines 126-200), for an entry
delivered with a nil error. -/
def visit (env : Env) (st : State) (e : Entry) : Except Abort State :=
  if e.theFile = bytesOf "content" then .ok st
  else
    let ext := Ext e.theFile
    if ext = bytesOf ".md" then do
      let finalHTML ← renderMarkdown env.unmarshal env.toHTML e.bytes env.template
      let target ← targetFilename e.theFile
      if env.writable target then
        return { st with
          markdownCount := st.markdownCount + 1
          effects := st.effects ++ [.mkdirParent target, .writeFile target finalHTML] }
      else throw .fatalErr
    else if toLower env.lowerRunes ext = bytesOf ".jpg" then do
      let target ← targetFilename e.theFile
      let resized ← resizeJPEG env.decode e target
      return { st with effects := st.effects ++ [resized] }
    else do
      let target ← targetFilename e.theFile
      match e.stat with
      | none => throw .fatalErr
      | some kind =>
        let made := if kind = .directory then [Effect.mkdirAll target] else []
        return { st with
          otherFileCount := st.otherFileCount + 1
          effects := st.effects ++ made ++ (copy e target).toList }

/-- The walk of `main`: both counters start at zero and the callback runs on the
entries in the order `filepath.WalkDir` delivers them; a `log.Fatal` or a panic
ends the program. -/
def walk (env : Env) (entries : List Entry) : Except Abort State :=
  entries.foldlM (visit env) { markdownCount := 0, otherFileCount := 0, effects := [] }

/-! ## Templates as placeholders and text -/

/-- A piece of a template: text, a `{TITLE}` placeholder or a `{BODY}` placeholder. -/
inductive Seg where
  | text (s : List Nat)
  | title
  | body
  deriving DecidableEq, Repr

/-- The bytes of a piece. -/
def Seg.bytes : Seg → List Nat
  | .text s => s
  | .title => TITLE
  | .body => BODY

/-- The template bytes made of the pieces, in order. -/
def templateOf : List Seg → List Nat
  | [] => []
  | seg :: rest => seg.bytes ++ templateOf rest

/-- The pieces in which no text holds the byte `{` (123): every `{` of the
template then begins a placeholder. -/
def plain : List Seg → Bool
  | [] => true
  | .text s :: rest => decide (123 ∉ s) && plain rest
  | _ :: rest => plain rest

/-- One-pass substitution as the specification words it: each `{TITLE}` piece
holds `title` verbatim, each `{BODY}` piece holds `body`, text is kept. -/
def simultaneous (segs : List Seg) (title body : List Nat) : List Nat :=
  match segs with
  | [] => []
  | .text s :: rest => s ++ simultaneous rest title body
  | .title :: rest => title ++ simultaneous rest title body
  | .body :: rest => body ++ simultaneous rest title body

/-! ## Preamble extraction on concrete documents -/

/-- C1: on the document `---\ntitle: Hi\n---\n# Greeting\n` the bytes handed to
markdown conversion are `\n---\n# Greeting\n`: they start at the newline before
the closing delimiter line and contain that line, they are not `# Greeting\n`. -/
theorem markdownBytes_hello :
    (getFileContents (some (bytesOf "---\ntitle: Hi\n---\n# Greeting\n")) >>= splitPreamble)
      = .ok { yamlStart := 3, yamlEnd := 13, yamlBytes := bytesOf "title: Hi",
              markdownBytes := bytesOf "\n---\n# Greeting\n" } := by
  decide

/-- C2: two documents on which `yamlBytes` is not the trimmed text between the
opening line and the first later delimiter line. With an empty preamble the
closing line at offset 4 is skipped and the text up to the next `---` line is
taken (`---\n# T` instead of the empty text); with `x` behind the opening `---`
the rest of the opening line is part of `yamlBytes` (`x\ntitle: A` instead of
`title: A`). -/
theorem yamlBytes_offsets :
    (getFileContents (some (bytesOf "---\n---\n# T\n---\nB\n")) >>= splitPreamble)
      = .ok { yamlStart := 3, yamlEnd := 11, yamlBytes := bytesOf "---\n# T",
              markdownBytes := bytesOf "\n---\nB\n" }
    ∧ (getFileContents (some (bytesOf "---x\ntitle: A\n---\nB\n")) >>= splitPreamble)
      = .ok { yamlStart := 3, yamlEnd := 13, yamlBytes := bytesOf "x\ntitle: A",
              markdownBytes := bytesOf "\n---\nB\n" } := by
  decide

/-- C9: on the document `---\n---\n` (an empty preamble) the second search runs on
`-\n`, finds no match, and indexing its nil result panics. -/
theorem empty_preamble_panics :
    (getFileContents (some (bytesOf "---\n---\n"))).map (fun c => c.sliceFrom 6)
      = .ok (.ok (bytesOf "-\n"))
    ∧ findIndex (bytesOf "-\n") = none
    ∧ (getFileContents (some (bytesOf "---\n---\n")) >>= splitPreamble)
      = .error .indexRange := by
  decide

/-! ## Classification and counters on concrete entries -/

/-- C4: the entry `content/README.MD` is not handed to the markdown pipeline: the
test is `ext == ".md"` on the extension as written, so the callback copies the
file to `published/README.MD` and increments the other-file counter, whatever
the file holds. -/
theorem upper_case_md_is_copied (env : Env) (st : State) (content : List Nat) :
    visit env st ⟨bytesOf "content/README.MD", some .regular, some content⟩
      = .ok { markdownCount := st.markdownCount
              otherFileCount := st.otherFileCount + 1
              effects := st.effects ++
                [.copied (bytesOf "content/README.MD") (bytesOf "published/README.MD") content] } := by
  have h : visit env st ⟨bytesOf "content/README.MD", some .regular, some content⟩
      = .ok { markdownCount := st.markdownCount
              otherFileCount := st.otherFileCount + 1
              effects := st.effects ++ [] ++
                [.copied (bytesOf "content/README.MD") (bytesOf "published/README.MD") content] } :=
    rfl
  simpa using h

/-- C5: a tree that holds one empty directory `content/a` ends the walk with the
other-file counter at 1, although no file was copied; so does a tree that holds
one entry `content/dev` that is not a regular file, whose copy fails. -/
theorem directory_is_counted (env : Env) :
    walk env [⟨bytesOf "content", some .directory, none⟩,
              ⟨bytesOf "content/a", some .directory, none⟩]
      = .ok { markdownCount := 0, otherFileCount := 1,
              effects := [.mkdirAll (bytesOf "published/a")] }
    ∧ walk env [⟨bytesOf "content", some .directory, none⟩,
              ⟨bytesOf "content/dev", some .irregular, none⟩]
      = .ok { markdownCount := 0, otherFileCount := 1, effects := [] } :=
  ⟨rfl, rfl⟩

/-- The `.jpg` test lowercases: `content/upright.JPG` of 800x2400 pixels is
resized to 333x1000 and no counter changes; a `.jpg` entry that does not decode
ends the program at `src.Bounds()`. -/
theorem jpg_entries (env : Env) (st : State) (content : List Nat) :
    (env.decode content = some (800, 2400) →
      visit env st ⟨bytesOf "content/upright.JPG", some .regular, some content⟩
        = .ok { st with effects := st.effects ++
            [.resize (bytesOf "content/upright.JPG") (bytesOf "published/upright.JPG") 333 1000] })
    ∧ (env.decode content = none →
      visit env st ⟨bytesOf "content/pic.jpg", some .regular, some content⟩
        = .error .nilDeref) := by
  constructor
  · intro h
    have hv : visit env st ⟨bytesOf "content/upright.JPG", some .regular, some content⟩
        = (resizeJPEG env.decode ⟨bytesOf "content/upright.JPG", some .regular, some content⟩
            (bytesOf "published/upright.JPG")).map
          (fun r => { st with effects := st.effects ++ [r] }) := rfl
    rw [hv]
    simp only [resizeJPEG, Option.bind, h]
    have hd : resizeDims 800 2400 = (333, 1000) := by decide
    rw [hd]
    rfl
  · intro h
    have hv : visit env st ⟨bytesOf "content/pic.jpg", some .regular, some content⟩
        = (resizeJPEG env.decode ⟨bytesOf "content/pic.jpg", some .regular, some content⟩
            (bytesOf "published/pic.jpg")).map
          (fun r => { st with effects := st.effects ++ [r] }) := rfl
    rw [hv]
    simp only [resizeJPEG, Option.bind, h]
    rfl

/-! ## Documents without an opening delimiter -/

/-- The first three bytes of the backing array are the first three bytes of the
file when it has three, and hold a zero byte otherwise. -/
theorem first_three_ne (content : List Nat) (h : content.take 3 ≠ dashes) :
    (content ++ List.replicate (512 - content.length) 0).take 3 ≠ dashes := by
  match content, h with
  | [], _ => decide
  | [a], _ =>
    have e : 512 - [a].length = 509 + 1 + 1 := rfl
    rw [e, List.replicate_succ, List.replicate_succ]
    simp [dashes]
  | [a, b], _ =>
    have e : 512 - [a, b].length = 509 + 1 := rfl
    rw [e, List.replicate_succ]
    simp [dashes]
  | a :: b :: c :: rest, h => simpa using h

/-- The slice `contentBytes[0:3]` of a file that was read never panics. -/
theorem slice_first_three (content : List Nat) :
    GoSlice.slice { data := content, spare := List.replicate (512 - content.length) 0 } 0 3
      = .ok ((content ++ List.replicate (512 - content.length) 0).take 3) := by
  have hcap : 3 ≤ content.length + (512 - content.length) := by omega
  simp [GoSlice.slice, GoSlice.cap, hcap]

/-- Lines 141-143: when the first three bytes are not `---` the program stops with
the missing-preamble message. -/
theorem yamlSection_missing (content : List Nat) (h : content.take 3 ≠ dashes) :
    yamlSection { data := content, spare := List.replicate (512 - content.length) 0 }
      = .error .missingPreamble := by
  unfold yamlSection
  rw [slice_first_three]
  simp [bind, Except.bind, first_three_ne content h, throw, throwThe, MonadExceptOf.throw]

/-- C8: a markdown entry whose file does not begin with the three bytes `---`
(shorter files included) stops the program with the missing-preamble message:
rendering returns that error whatever the YAML parser, the markdown converter
and the template are, and the callback returns it without having appended a
write (or any other effect) to the state. -/
theorem missing_preamble_aborts (env : Env) (st : State) (e : Entry)
    (content template : List Nat)
    (hext : Ext e.theFile = bytesOf ".md") (hbytes : e.bytes = some content)
    (htemplate : env.template = some template) (h : content.take 3 ≠ dashes) :
    renderMarkdown env.unmarshal env.toHTML e.bytes env.template = .error .missingPreamble
    ∧ visit env st e = .error .missingPreamble := by
  have hr : renderMarkdown env.unmarshal env.toHTML e.bytes env.template
      = .error .missingPreamble := by
    unfold renderMarkdown
    rw [hbytes, htemplate]
    simp [getFileContents, bind, Except.bind, yamlSection_missing content h]
  refine ⟨hr, ?_⟩
  have hroot : e.theFile ≠ bytesOf "content" := by
    intro hc
    rw [hc] at hext
    revert hext
    decide
  unfold visit
  rw [if_neg hroot]
  simp [hext, hr, bind, Except.bind]

/-- Witness for C8: the two-byte file `# ` at `content/bad.md`. -/
theorem missing_preamble_aborts_witness :
    renderMarkdown (fun _ => some []) id (some (bytesOf "# ")) (some (bytesOf "<p>"))
        = .error .missingPreamble
    ∧ visit ⟨fun _ => some [], id, some (bytesOf "<p>"), fun _ => true, id, fun _ => none⟩
        ⟨0, 0, []⟩ ⟨bytesOf "content/bad.md", some .regular, some (bytesOf "# ")⟩
        = .error .missingPreamble :=
  missing_preamble_aborts ⟨fun _ => some [], id, some (bytesOf "<p>"), fun _ => true, id, fun _ => none⟩
    ⟨0, 0, []⟩ ⟨bytesOf "content/bad.md", some .regular, some (bytesOf "# ")⟩
    (bytesOf "# ") (bytesOf "<p>") (by decide) rfl rfl (by decide)

/-! ## The body on every document -/

/-- A match of the regular expression starts with `---`. -/
theorem findIndexFrom_dashes (s : List Nat) :
    ∀ (bol : Bool) (i a b : Nat), findIndexFrom bol i s = some (a, b) →
      i ≤ a ∧ (s.drop (a - i)).take 3 = dashes := by
  induction s with
  | nil => intro bol i a b h; simp [findIndexFrom] at h
  | cons c cs ih =>
    intro bol i a b h
    unfold findIndexFrom at h
    by_cases hm : (bol && dashes.isPrefixOf (c :: cs)) = true
    · rw [if_pos hm] at h
      simp only [Option.some.injEq, Prod.mk.injEq] at h
      simp only [Bool.and_eq_true] at hm
      obtain ⟨t, ht⟩ := List.isPrefixOf_iff_prefix.mp hm.2
      refine ⟨by omega, ?_⟩
      have e : a - i = 0 := by omega
      rw [e, List.drop_zero, ← ht]
      rfl
    · rw [if_neg hm] at h
      obtain ⟨h1, h2⟩ := ih _ _ _ _ h
      refine ⟨by omega, ?_⟩
      have e : a - i = (a - (i + 1)) + 1 := by omega
      rw [e, List.drop_succ_cons]
      exact h2


/-- A successful bind has a successful first step. -/
theorem bind_ok {α β : Type} (x : Except Abort α) (f : α → Except Abort β) (b : β)
    (h : (x >>= f) = .ok b) : ∃ a, x = .ok a ∧ f a = .ok b := by
  cases x with
  | error e => simp [bind, Except.bind] at h
  | ok a => exact ⟨a, rfl, h⟩

/-- A successful `loc[0]` comes from a match. -/
theorem locStart_ok (loc : Option (Nat × Nat)) (a : Nat) (h : locStart loc = .ok a) :
    ∃ b, loc = some (a, b) := by
  match loc, h with
  | some (a', b), h =>
    simp only [locStart, Except.ok.injEq] at h
    exact ⟨b, by rw [h]⟩

/-- A successful `s[lo:]` is the tail from `lo`. -/
theorem sliceFrom_ok (c : GoSlice) (lo : Nat) (r : List Nat) (h : c.sliceFrom lo = .ok r) :
    lo ≤ c.data.length ∧ r = c.data.drop lo := by
  unfold GoSlice.sliceFrom GoSlice.len at h
  by_cases hl : lo ≤ c.data.length
  · rw [if_pos hl] at h
    exact ⟨hl, (Except.ok.inj h).symm⟩
  · rw [if_neg hl] at h
    cases h

/-- A file that passes the test of line 141 has its first match at offset 0. -/
theorem findIndex_opening (content : List Nat) (a b : Nat)
    (hf : (content ++ List.replicate (512 - content.length) 0).take 3 = dashes)
    (h : findIndex content = some (a, b)) : a = 0 := by
  have hc : content.take 3 = dashes := by
    by_contra hne
    exact first_three_ne content hne hf
  have hp : dashes.isPrefixOf content = true := by
    rw [List.isPrefixOf_iff_prefix]
    exact ⟨content.drop 3, by rw [← hc, List.take_append_drop]⟩
  match content, hp, h with
  | [], hp, _ => simp [dashes] at hp
  | c :: cs, hp, h =>
    simp only [findIndex, findIndexFrom, hp, Bool.and_self, if_true,
      Option.some.injEq, Prod.mk.injEq] at h
    exact h.1.symm

/-- Whenever lines 141-157 succeed on a file, the bytes handed to markdown
conversion hold `---` at offsets 1 to 3: the closing delimiter is always part
of the body. -/
theorem markdownBytes_holds_delimiter (content : List Nat) (p : Preamble)
    (h : (getFileContents (some content) >>= splitPreamble) = .ok p) :
    (p.markdownBytes.drop 1).take 3 = dashes := by
  have h' : splitPreamble { data := content, spare := List.replicate (512 - content.length) 0 }
      = .ok p := h
  unfold splitPreamble at h'
  obtain ⟨⟨ys, ye, yb⟩, hy, h3⟩ := bind_ok _ _ _ h'
  obtain ⟨md, hmd, hp⟩ := bind_ok _ _ _ h3
  unfold yamlSection at hy
  obtain ⟨first, hfirst, hy1⟩ := bind_ok _ _ _ hy
  by_cases hf : first = dashes
  · rw [if_neg (not_not.mpr hf)] at hy1
    obtain ⟨a0, ha0, hy3⟩ := bind_ok _ _ _ hy1
    obtain ⟨rest, hrest, hy4⟩ := bind_ok _ _ _ hy3
    obtain ⟨a2, ha2, hy5⟩ := bind_ok _ _ _ hy4
    obtain ⟨between, hbetween, hy6⟩ := bind_ok _ _ _ hy5
    obtain ⟨b0, hloc0⟩ := locStart_ok _ _ ha0
    obtain ⟨b2, hloc2⟩ := locStart_ok _ _ ha2
    obtain ⟨-, hrest'⟩ := sliceFrom_ok _ _ _ hrest
    have hye : ye = a2 + 5 := by
      have := Except.ok.inj hy6
      simp only [Prod.mk.injEq] at this
      exact this.2.1.symm
    obtain ⟨-, hmd'⟩ := sliceFrom_ok _ _ _ hmd
    have hpm : p.markdownBytes = md := by
      have := Except.ok.inj hp
      rw [← this]
    rw [slice_first_three] at hfirst
    have hf' := (Except.ok.inj hfirst).trans hf
    have h0 : a0 = 0 := findIndex_opening content a0 b0 hf' hloc0
    have hd := (findIndexFrom_dashes _ true 0 a2 b2 hloc2).2
    rw [hpm, hmd', hye]
    rw [hrest', h0] at hd
    simp only [List.drop_drop, Nat.sub_zero] at hd ⊢
    have e : ∀ m n : Nat, m = n → (content.drop m).take 3 = (content.drop n).take 3 :=
      fun m n hmn => by rw [hmn]
    rw [← hd]
    exact e _ _ (by omega)
  · rw [if_pos hf] at hy1
    simp [throw, throwThe, MonadExceptOf.throw] at hy1

/-! ## Mirrored output paths -/

/-- The scan returns a suffix of the path. -/
theorem extScan_suffix (rs : List Nat) :
    ∀ acc : List Nat, ∃ pre, rs.reverse ++ acc = pre ++ extScan acc rs := by
  induction rs with
  | nil => intro acc; exact ⟨acc, by simp [extScan]⟩
  | cons c cs ih =>
    intro acc
    unfold extScan
    by_cases h47 : c = 47
    · exact ⟨(c :: cs).reverse ++ acc, by simp [h47]⟩
    · by_cases h46 : c = 46
      · exact ⟨cs.reverse, by simp [h46]⟩
      · obtain ⟨pre, hpre⟩ := ih (c :: acc)
        exact ⟨pre, by simpa [h47, h46] using hpre⟩

/-- The extension is a suffix of the path. -/
theorem Ext_suffix (path : List Nat) : ∃ pre, path = pre ++ Ext path := by
  obtain ⟨pre, h⟩ := extScan_suffix path.reverse []
  exact ⟨pre, by simpa [Ext] using h⟩

/-- The scan does not look past a `/`. -/
theorem extScan_slash (rs tl : List Nat) :
    ∀ acc : List Nat, extScan acc (rs ++ 47 :: tl) = extScan acc rs := by
  induction rs with
  | nil => intro acc; simp [extScan]
  | cons c cs ih =>
    intro acc
    simp only [List.cons_append, extScan]
    by_cases h47 : c = 47
    · simp [h47]
    · by_cases h46 : c = 46
      · simp [h46]
      · simp [h47, h46, ih]

/-- The extension of a path under `content/` is the extension of the relative path. -/
theorem Ext_content (rel : List Nat) : Ext (bytesOf "content/" ++ rel) = Ext rel := by
  have h : bytesOf "content/" = bytesOf "content" ++ [47] := by decide
  unfold Ext
  rw [h]
  simp only [List.reverse_append, List.reverse_cons, List.reverse_nil, List.nil_append,
    List.singleton_append, List.append_assoc]
  exact extScan_slash _ _ _

/-- Output path of a `.md` entry under `content/`. -/
theorem targetFilename_md (rel : List Nat) (h : Ext (bytesOf "content/" ++ rel) = bytesOf ".md") :
    ∃ stem, rel = stem ++ bytesOf ".md" ∧
      targetFilename (bytesOf "content/" ++ rel)
        = .ok (bytesOf "published/" ++ (stem ++ bytesOf ".html")) := by
  obtain ⟨stem, hstem⟩ := Ext_suffix rel
  rw [Ext_content] at h
  rw [h] at hstem
  refine ⟨stem, hstem, ?_⟩
  have hext : Ext (bytesOf "content/" ++ rel) = bytesOf ".md" := by rw [Ext_content, h]
  have h8 : (bytesOf "content/").length = 8 := by decide
  have h3 : (bytesOf ".md").length = 3 := by decide
  have hlen : (bytesOf "content/" ++ rel).length - (bytesOf ".md").length = 8 + stem.length := by
    rw [hstem]; simp only [List.length_append, h8, h3]; omega
  have hle : 8 ≤ 8 + stem.length ∧ 8 + stem.length ≤ (bytesOf "content/" ++ rel).length := by
    rw [hstem]; simp only [List.length_append, h8, h3]; omega
  have htake : ((bytesOf "content/" ++ rel).take (8 + stem.length)).drop 8 = stem := by
    rw [hstem, ← h8, ← List.append_assoc, ← List.length_append, List.take_left,
      List.drop_left]
  unfold targetFilename
  simp only [hext, if_true, strSlice, hlen, if_pos hle, htake]
  rfl

/-- Output path of any other entry under `content/`. -/
theorem targetFilename_other (rel : List Nat)
    (h : Ext (bytesOf "content/" ++ rel) ≠ bytesOf ".md") :
    targetFilename (bytesOf "content/" ++ rel) = .ok (bytesOf "published/" ++ rel) := by
  have h8 : (bytesOf "content/").length = 8 := by decide
  have hle : 8 ≤ (bytesOf "content/" ++ rel).length
      ∧ (bytesOf "content/" ++ rel).length ≤ (bytesOf "content/" ++ rel).length := by
    simp only [List.length_append, h8]; omega
  have hdrop : ((bytesOf "content/" ++ rel).take (bytesOf "content/" ++ rel).length).drop 8
      = rel := by
    rw [List.take_length, ← h8, List.drop_left]
  unfold targetFilename
  simp only [h, if_false, strSliceFrom, strSlice, if_pos hle, hdrop]
  rfl

/-- C10, counterexample: the distinct files `content/a.md` and `content/a.html`
are both written to `published/a.html`. -/
theorem mirrored_path_collision :
    bytesOf "content/a.md" ≠ bytesOf "content/a.html"
    ∧ targetFilename (bytesOf "content/a.md") = .ok (bytesOf "published/a.html")
    ∧ targetFilename (bytesOf "content/a.html") = .ok (bytesOf "published/a.html") := by
  decide

/-- C10, amended: the output path of every walked path `content/rel` is defined,
and two distinct walked paths have the same output path only when one is a `.md`
entry `stem.md` and the other is `stem.html`. -/
theorem mirrored_path_collisions_only_md_html (rel₁ rel₂ : List Nat) :
    (∃ t, targetFilename (bytesOf "content/" ++ rel₁) = .ok t)
    ∧ (rel₁ ≠ rel₂ →
        targetFilename (bytesOf "content/" ++ rel₁) = targetFilename (bytesOf "content/" ++ rel₂) →
        (∃ stem, rel₁ = stem ++ bytesOf ".md" ∧ rel₂ = stem ++ bytesOf ".html")
        ∨ (∃ stem, rel₂ = stem ++ bytesOf ".md" ∧ rel₁ = stem ++ bytesOf ".html")) := by
  by_cases h₁ : Ext (bytesOf "content/" ++ rel₁) = bytesOf ".md"
  · obtain ⟨s₁, hs₁, ht₁⟩ := targetFilename_md rel₁ h₁
    refine ⟨⟨_, ht₁⟩, fun hne heq => ?_⟩
    by_cases h₂ : Ext (bytesOf "content/" ++ rel₂) = bytesOf ".md"
    · obtain ⟨s₂, hs₂, ht₂⟩ := targetFilename_md rel₂ h₂
      rw [ht₁, ht₂] at heq
      have hs : s₁ = s₂ := by
        have := Except.ok.inj heq
        simpa using this
      exact absurd (by rw [hs₁, hs₂, hs]) hne
    · rw [ht₁, targetFilename_other rel₂ h₂] at heq
      have := Except.ok.inj heq
      exact Or.inl ⟨s₁, hs₁, by simpa using this.symm⟩
  · have ht₁ := targetFilename_other rel₁ h₁
    refine ⟨⟨_, ht₁⟩, fun hne heq => ?_⟩
    by_cases h₂ : Ext (bytesOf "content/" ++ rel₂) = bytesOf ".md"
    · obtain ⟨s₂, hs₂, ht₂⟩ := targetFilename_md rel₂ h₂
      rw [ht₁, ht₂] at heq
      have := Except.ok.inj heq
      exact Or.inr ⟨s₂, hs₂, by simpa using this⟩
    · rw [ht₁, targetFilename_other rel₂ h₂] at heq
      have := Except.ok.inj heq
      exact absurd (by simpa using this) hne

/-- Witness for C10: the colliding pair `a.md`, `a.html`, whose output paths are
defined, differ as inputs and coincide as outputs. -/
theorem mirrored_path_collisions_only_md_html_witness :
    bytesOf "a.md" ≠ bytesOf "a.html"
    ∧ targetFilename (bytesOf "content/" ++ bytesOf "a.md")
        = targetFilename (bytesOf "content/" ++ bytesOf "a.html")
    ∧ (∃ t, targetFilename (bytesOf "content/" ++ bytesOf "a.md") = .ok t)
    ∧ ((∃ stem, bytesOf "a.md" = stem ++ bytesOf ".md" ∧ bytesOf "a.html" = stem ++ bytesOf ".html")
      ∨ (∃ stem, bytesOf "a.html" = stem ++ bytesOf ".md"
          ∧ bytesOf "a.md" = stem ++ bytesOf ".html")) :=
  ⟨by decide, by decide,
    (mirrored_path_collisions_only_md_html (bytesOf "a.md") (bytesOf "a.html")).1,
    (mirrored_path_collisions_only_md_html (bytesOf "a.md") (bytesOf "a.html")).2
      (by decide) (by decide)⟩

/-! ## Template substitution -/

/-- Passing over the bytes of a match resumes the scan behind them. -/
theorem replaceAllAux_skip (old new xs rest : List Nat) :
    replaceAllAux old new xs.length (xs ++ rest) = replaceAllAux old new 0 rest := by
  induction xs with
  | nil => rfl
  | cons x xs ih => simpa [replaceAllAux] using ih

/-- An occurrence of the pattern at the head is replaced. -/
theorem replaceAll_match (o : Nat) (os new rest : List Nat) :
    replaceAll ((o :: os) ++ rest) (o :: os) new = new ++ replaceAll rest (o :: os) new := by
  have hp : (o :: os).isPrefixOf (o :: (os ++ rest)) = true := by
    rw [List.isPrefixOf_iff_prefix]
    exact ⟨rest, rfl⟩
  have hl : (o :: os).length - 1 = os.length := by simp
  show replaceAllAux (o :: os) new 0 (o :: (os ++ rest)) = _
  rw [replaceAllAux, if_pos hp, hl, replaceAllAux_skip]
  rfl

/-- Text without the first byte of the pattern is copied. -/
theorem replaceAll_text (o : Nat) (os new a rest : List Nat) (h : o ∉ a) :
    replaceAll (a ++ rest) (o :: os) new = a ++ replaceAll rest (o :: os) new := by
  induction a with
  | nil => rfl
  | cons c a ih =>
    have hc : o ≠ c := fun e => h (by simp [e])
    have ha : o ∉ a := fun e => h (by simp [e])
    have hp : (o :: os).isPrefixOf (c :: (a ++ rest)) = false := by
      simp [List.isPrefixOf, hc]
    show replaceAllAux (o :: os) new 0 (c :: (a ++ rest)) = _
    rw [replaceAllAux, hp]
    simpa [replaceAll] using ih ha

/-- Text without `{` is left as it is by either replacement. -/
theorem replaceAll_noBrace (os new s : List Nat) (h : 123 ∉ s) :
    replaceAll s (123 :: os) new = s := by
  have := replaceAll_text 123 os new s [] h
  simpa [replaceAll, replaceAllAux] using this

/-- The `{TITLE}` pass copies a `{BODY}` placeholder. -/
theorem replaceAll_TITLE_over_BODY (new rest : List Nat) :
    replaceAll (BODY ++ rest) TITLE new = BODY ++ replaceAll rest TITLE new := by
  simp [replaceAll, replaceAllAux, BODY, TITLE, List.isPrefixOf]

/-- The `{BODY}` pass copies a `{TITLE}` placeholder. -/
theorem replaceAll_BODY_over_TITLE (new rest : List Nat) :
    replaceAll (TITLE ++ rest) BODY new = TITLE ++ replaceAll rest BODY new := by
  simp [replaceAll, replaceAllAux, BODY, TITLE, List.isPrefixOf]

/-- The `{TITLE}` pass over a plain template: titles are put in, `{BODY}` stays. -/
theorem replaceAll_TITLE_plain (segs : List Seg) (title rest : List Nat) (h : plain segs = true) :
    replaceAll (templateOf segs ++ rest) TITLE title
      = simultaneous segs title BODY ++ replaceAll rest TITLE title := by
  induction segs with
  | nil => rfl
  | cons seg segs ih =>
    cases seg with
    | text s =>
      simp only [plain, Bool.and_eq_true, decide_eq_true_eq] at h
      simp only [templateOf, Seg.bytes, simultaneous, List.append_assoc]
      rw [TITLE, replaceAll_text 123 _ _ s _ h.1, ← TITLE, ih h.2]
    | title =>
      simp only [plain] at h
      simp only [templateOf, Seg.bytes, simultaneous, List.append_assoc]
      rw [← ih h]
      exact replaceAll_match 123 _ _ _
    | body =>
      simp only [plain] at h
      simp only [templateOf, Seg.bytes, simultaneous, List.append_assoc]
      rw [replaceAll_TITLE_over_BODY, ih h]

/-- The `{BODY}` pass over a plain template: bodies are put in, `{TITLE}` stays. -/
theorem replaceAll_BODY_plain (segs : List Seg) (body rest : List Nat) (h : plain segs = true) :
    replaceAll (templateOf segs ++ rest) BODY body
      = simultaneous segs TITLE body ++ replaceAll rest BODY body := by
  induction segs with
  | nil => rfl
  | cons seg segs ih =>
    cases seg with
    | text s =>
      simp only [plain, Bool.and_eq_true, decide_eq_true_eq] at h
      simp only [templateOf, Seg.bytes, simultaneous, List.append_assoc]
      rw [BODY, replaceAll_text 123 _ _ s _ h.1, ← BODY, ih h.2]
    | title =>
      simp only [plain] at h
      simp only [templateOf, Seg.bytes, simultaneous, List.append_assoc]
      rw [replaceAll_BODY_over_TITLE, ih h]
    | body =>
      simp only [plain] at h
      simp only [templateOf, Seg.bytes, simultaneous, List.append_assoc]
      rw [← ih h]
      exact replaceAll_match 123 _ _ _

/-- The `{BODY}` pass over the result of the `{TITLE}` pass, when the title is
itself made of placeholders and text without `{`: the title is scanned too. -/
theorem replaceAll_BODY_after_TITLE (segs tsegs : List Seg) (body rest : List Nat)
    (h : plain segs = true) (ht : plain tsegs = true) :
    replaceAll (simultaneous segs (templateOf tsegs) BODY ++ rest) BODY body
      = simultaneous segs (simultaneous tsegs TITLE body) body ++ replaceAll rest BODY body := by
  induction segs with
  | nil => rfl
  | cons seg segs ih =>
    cases seg with
    | text s =>
      simp only [plain, Bool.and_eq_true, decide_eq_true_eq] at h
      simp only [simultaneous, List.append_assoc]
      rw [BODY, replaceAll_text 123 _ _ s _ h.1, ← BODY, ih h.2]
    | title =>
      simp only [plain] at h
      simp only [simultaneous, List.append_assoc]
      rw [replaceAll_BODY_plain tsegs body _ ht, ih h]
    | body =>
      simp only [plain] at h
      simp only [simultaneous, List.append_assoc]
      rw [← ih h]
      exact replaceAll_match 123 _ _ _

/-- Both passes on a plain template with a plain title. -/
theorem substitute_segments (segs tsegs : List Seg) (body : List Nat)
    (h : plain segs = true) (ht : plain tsegs = true) :
    substitute (templateOf segs) (templateOf tsegs) body
      = simultaneous segs (simultaneous tsegs TITLE body) body := by
  have e : ∀ old new : List Nat, replaceAll [] old new = [] := fun _ _ => rfl
  have h1 := replaceAll_TITLE_plain segs (templateOf tsegs) [] h
  have h2 := replaceAll_BODY_after_TITLE segs tsegs body [] h ht
  simp only [List.append_nil, e] at h1 h2
  unfold substitute
  rw [h1, h2]

/-- A one-pass result without `{` in its parts has no `{`. -/
theorem noBrace_simultaneous (segs : List Seg) (title body : List Nat)
    (h : plain segs = true) (ht : 123 ∉ title) (hb : 123 ∉ body) :
    123 ∉ simultaneous segs title body := by
  induction segs with
  | nil => simp [simultaneous]
  | cons seg segs ih =>
    cases seg with
    | text s =>
      simp only [plain, Bool.and_eq_true, decide_eq_true_eq] at h
      simp [simultaneous, h.1, ih h.2]
    | title =>
      simp only [plain] at h
      simp [simultaneous, ht, ih h]
    | body =>
      simp only [plain] at h
      simp [simultaneous, hb, ih h]

/-- Both passes on a plain template with a title that has no `{`. -/
theorem substitute_plain (segs : List Seg) (title body : List Nat)
    (h : plain segs = true) (ht : 123 ∉ title) :
    substitute (templateOf segs) title body = simultaneous segs title body := by
  have hp : plain [.text title] = true := by simp [plain, ht]
  have h1 := substitute_segments segs [.text title] body h hp
  simpa [templateOf, simultaneous, Seg.bytes] using h1

/-- C3, counterexample: in the template `<t>{TITLE}</t>{BODY}` with the title
`{BODY}` and the body `<p>x</p>`, the place of `{TITLE}` holds the body and not
the title: the page is `<t><p>x</p></t><p>x</p>`, where one-pass substitution
gives `<t>{BODY}</t><p>x</p>`. -/
theorem title_with_BODY_holds_body :
    templateOf [.text (bytesOf "<t>"), .title, .text (bytesOf "</t>"), .body]
      = bytesOf "<t>\x7bTITLE\x7d</t>\x7bBODY\x7d"
    ∧ substitute (bytesOf "<t>\x7bTITLE\x7d</t>\x7bBODY\x7d") (bytesOf "\x7bBODY\x7d")
        (bytesOf "<p>x</p>") = bytesOf "<t><p>x</p></t><p>x</p>"
    ∧ simultaneous [.text (bytesOf "<t>"), .title, .text (bytesOf "</t>"), .body]
        (bytesOf "\x7bBODY\x7d") (bytesOf "<p>x</p>") = bytesOf "<t>\x7bBODY\x7d</t><p>x</p>" := by
  decide

/-- C3, amended: in a template whose `{` bytes all begin a placeholder, with a title
made of text without `{` and placeholders, the rendered page holds at each
`{TITLE}` the title in which every `{BODY}` has been replaced by the body, and
at each `{BODY}` the body, which is not scanned again; a title without `{` is
held verbatim. -/
theorem substitute_scans_title (segs tsegs : List Seg) (body : List Nat)
    (h : plain segs = true) (ht : plain tsegs = true) :
    substitute (templateOf segs) (templateOf tsegs) body
        = simultaneous segs (simultaneous tsegs TITLE body) body
    ∧ ∀ title : List Nat, 123 ∉ title →
        substitute (templateOf segs) title body = simultaneous segs title body :=
  ⟨substitute_segments segs tsegs body h ht, fun title hn => substitute_plain segs title body h hn⟩

/-- Witness for C3: the template `<t>{TITLE}</t>{BODY}` and the title `a{BODY}`. -/
theorem substitute_scans_title_witness :
    plain [.text (bytesOf "<t>"), .title, .text (bytesOf "</t>"), .body] = true
    ∧ plain [.text (bytesOf "a"), .body] = true
    ∧ (substitute (templateOf [.text (bytesOf "<t>"), .title, .text (bytesOf "</t>"), .body])
          (templateOf [.text (bytesOf "a"), .body]) (bytesOf "<p>x</p>")
        = simultaneous [.text (bytesOf "<t>"), .title, .text (bytesOf "</t>"), .body]
            (simultaneous [.text (bytesOf "a"), .body] TITLE (bytesOf "<p>x</p>"))
            (bytesOf "<p>x</p>")
      ∧ ∀ title : List Nat, 123 ∉ title →
          substitute (templateOf [.text (bytesOf "<t>"), .title, .text (bytesOf "</t>"), .body])
            title (bytesOf "<p>x</p>")
          = simultaneous [.text (bytesOf "<t>"), .title, .text (bytesOf "</t>"), .body]
              title (bytesOf "<p>x</p>")) :=
  ⟨by decide, by decide,
    substitute_scans_title [.text (bytesOf "<t>"), .title, .text (bytesOf "</t>"), .body]
      [.text (bytesOf "a"), .body] (bytesOf "<p>x</p>") (by decide) (by decide)⟩

/-- C7, counterexample: two renderings whose output changes when rendered again,
although neither the title nor the body holds a placeholder. The template
`{TI{TITLE}TLE}` with an empty title renders to `{TITLE}` and then to the empty
page; the template `{TITLE}{BODY}` with the title `{BO` and the body `DY}`
renders to `{BODY}` and then to `DY}`. -/
theorem substitute_twice_differs :
    (¬ TITLE <:+: [] ∧ ¬ BODY <:+: []
      ∧ ¬ TITLE <:+: bytesOf "<p>x</p>" ∧ ¬ BODY <:+: bytesOf "<p>x</p>"
      ∧ substitute (bytesOf "\x7bTI\x7bTITLE\x7dTLE\x7d") [] (bytesOf "<p>x</p>")
          = bytesOf "\x7bTITLE\x7d"
      ∧ substitute (substitute (bytesOf "\x7bTI\x7bTITLE\x7dTLE\x7d") [] (bytesOf "<p>x</p>"))
          [] (bytesOf "<p>x</p>") = [])
    ∧ (¬ TITLE <:+: bytesOf "\x7bBO" ∧ ¬ BODY <:+: bytesOf "\x7bBO"
      ∧ ¬ TITLE <:+: bytesOf "DY\x7d" ∧ ¬ BODY <:+: bytesOf "DY\x7d"
      ∧ substitute (bytesOf "\x7bTITLE\x7d\x7bBODY\x7d") (bytesOf "\x7bBO") (bytesOf "DY\x7d")
          = bytesOf "\x7bBODY\x7d"
      ∧ substitute (substitute (bytesOf "\x7bTITLE\x7d\x7bBODY\x7d") (bytesOf "\x7bBO")
            (bytesOf "DY\x7d")) (bytesOf "\x7bBO") (bytesOf "DY\x7d")
          = bytesOf "DY\x7d") := by
  decide

/-- C7, amended: for a template whose `{` bytes all begin a placeholder, and a
title and a body without the byte `{`, substituting into the rendered page
again with the same title and body returns it unchanged. -/
theorem substitute_idempotent (segs : List Seg) (title body : List Nat)
    (h : plain segs = true) (ht : 123 ∉ title) (hb : 123 ∉ body) :
    substitute (substitute (templateOf segs) title body) title body
      = substitute (templateOf segs) title body := by
  rw [substitute_plain segs title body h ht]
  have hn := noBrace_simultaneous segs title body h ht hb
  unfold substitute
  rw [TITLE, replaceAll_noBrace _ _ _ hn, BODY, replaceAll_noBrace _ _ _ hn]

/-- Witness for C7: the template `<t>{TITLE}</t>{BODY}`, title `Hi`, body `<p>x</p>`. -/
theorem substitute_idempotent_witness :
    plain [.text (bytesOf "<t>"), .title, .text (bytesOf "</t>"), .body] = true
    ∧ 123 ∉ bytesOf "Hi" ∧ 123 ∉ bytesOf "<p>x</p>"
    ∧ substitute (substitute
          (templateOf [.text (bytesOf "<t>"), .title, .text (bytesOf "</t>"), .body])
          (bytesOf "Hi") (bytesOf "<p>x</p>")) (bytesOf "Hi") (bytesOf "<p>x</p>")
        = substitute (templateOf [.text (bytesOf "<t>"), .title, .text (bytesOf "</t>"), .body])
          (bytesOf "Hi") (bytesOf "<p>x</p>") :=
  ⟨by decide, by decide, by decide,
    substitute_idempotent [.text (bytesOf "<t>"), .title, .text (bytesOf "</t>"), .body]
      (bytesOf "Hi") (bytesOf "<p>x</p>") (by decide) (by decide) (by decide)⟩

/-! ## The size computation in binary64 -/

/-- The fuel-bounded logarithm brackets its argument between powers of two. -/
theorem ilog2Aux_spec : ∀ fuel n : Nat, 0 < n → n ≤ fuel →
    2 ^ ilog2Aux fuel n ≤ n ∧ n < 2 ^ (ilog2Aux fuel n + 1) := by
  intro fuel
  induction fuel with
  | zero => intro n h0 h; omega
  | succ fuel ih =>
    intro n h0 h
    unfold ilog2Aux
    by_cases h2 : 2 ≤ n
    · rw [if_pos h2]
      have hd : 0 < n / 2 := by omega
      have hf : n / 2 ≤ fuel := by omega
      obtain ⟨h1, h3⟩ := ih (n / 2) hd hf
      rw [pow_succ, pow_succ]
      rw [pow_succ] at h3
      omega
    · rw [if_neg h2]
      simp
      omega

/-- The leading bit of a positive number. -/
theorem ilog2_spec (n : Nat) (h : 0 < n) : 2 ^ ilog2 n ≤ n ∧ n < 2 ^ (ilog2 n + 1) :=
  ilog2Aux_spec n n h (le_refl n)

/-- The scaled quotient is at least `2^52`. -/
theorem scaled_ge (p q bp c : Nat) (h : q * 2 ^ bp ≤ p * 2 ^ c) :
    2 ^ 52 * (q * 2 ^ (bp - (c + 52))) ≤ p * 2 ^ ((c + 52) - bp) := by
  by_cases hc : c + 52 ≤ bp
  · obtain ⟨u, rfl⟩ := Nat.exists_eq_add_of_le hc
    have e1 : c + 52 + u - (c + 52) = u := by omega
    have e2 : c + 52 - (c + 52 + u) = 0 := by omega
    rw [e1, e2, pow_zero, mul_one]
    have h' : (2 ^ 52 * (q * 2 ^ u)) * 2 ^ c ≤ p * 2 ^ c := by
      calc (2 ^ 52 * (q * 2 ^ u)) * 2 ^ c = q * 2 ^ (c + 52 + u) := by ring
        _ ≤ p * 2 ^ c := h
    exact Nat.le_of_mul_le_mul_right h' (by positivity)
  · have hc' : bp ≤ c + 52 := by omega
    obtain ⟨d, hd⟩ := Nat.exists_eq_add_of_le hc'
    have e1 : bp - (c + 52) = 0 := by omega
    have e2 : c + 52 - bp = d := by omega
    rw [e1, e2, pow_zero, mul_one]
    have h' : (2 ^ 52 * q) * 2 ^ bp ≤ (p * 2 ^ d) * 2 ^ bp := by
      calc (2 ^ 52 * q) * 2 ^ bp = (q * 2 ^ bp) * 2 ^ 52 := by ring
        _ ≤ (p * 2 ^ c) * 2 ^ 52 := Nat.mul_le_mul_right _ h
        _ = p * 2 ^ (c + 52) := by ring
        _ = (p * 2 ^ d) * 2 ^ bp := by rw [hd]; ring
    exact Nat.le_of_mul_le_mul_right h' (by positivity)

/-- The exponent chosen by `round64` scales the quotient to at least `2^52`. -/
theorem exponent_ok (p q : Nat) (hp : 0 < p) (hq : 0 < q) :
    q * 2 ^ ilog2 p ≤
      p * 2 ^ (if q * 2 ^ ilog2 p ≤ p * 2 ^ ilog2 q then ilog2 q else ilog2 q + 1) := by
  by_cases h : q * 2 ^ ilog2 p ≤ p * 2 ^ ilog2 q
  · rw [if_pos h]; exact h
  · rw [if_neg h]
    have h1 := (ilog2_spec p hp).1
    have h2 := (ilog2_spec q hq).2
    calc q * 2 ^ ilog2 p ≤ 2 ^ (ilog2 q + 1) * p := Nat.mul_le_mul (le_of_lt h2) h1
      _ = p * 2 ^ (ilog2 q + 1) := by ring

/-- The scaled quotient is below `2^53`. -/
theorem scaled_lt (p q bp c : Nat) (h : p * 2 ^ c < q * 2 ^ (bp + 1)) :
    p * 2 ^ ((c + 52) - bp) < 2 ^ 53 * (q * 2 ^ (bp - (c + 52))) := by
  by_cases hc : c + 52 ≤ bp
  · obtain ⟨u, rfl⟩ := Nat.exists_eq_add_of_le hc
    have e1 : c + 52 + u - (c + 52) = u := by omega
    have e2 : c + 52 - (c + 52 + u) = 0 := by omega
    rw [e1, e2, pow_zero, mul_one]
    have h' : p * 2 ^ c < (2 ^ 53 * (q * 2 ^ u)) * 2 ^ c := by
      calc p * 2 ^ c < q * 2 ^ (c + 52 + u + 1) := h
        _ = (2 ^ 53 * (q * 2 ^ u)) * 2 ^ c := by ring
    exact Nat.lt_of_mul_lt_mul_right h'
  · have hc' : bp ≤ c + 52 := by omega
    obtain ⟨d, hd⟩ := Nat.exists_eq_add_of_le hc'
    have e1 : bp - (c + 52) = 0 := by omega
    have e2 : c + 52 - bp = d := by omega
    rw [e1, e2, pow_zero, mul_one]
    have h' : (p * 2 ^ d) * 2 ^ bp < (2 ^ 53 * q) * 2 ^ bp := by
      calc (p * 2 ^ d) * 2 ^ bp = p * 2 ^ (bp + d) := by ring
        _ = (p * 2 ^ c) * 2 ^ 52 := by rw [← hd]; ring
        _ < (q * 2 ^ (bp + 1)) * 2 ^ 52 := Nat.mul_lt_mul_of_pos_right h (by positivity)
        _ = (2 ^ 53 * q) * 2 ^ bp := by ring
    exact Nat.lt_of_mul_lt_mul_right h'

/-- The exponent chosen by `round64` scales the quotient below `2^53`. -/
theorem exponent_upper (p q : Nat) (hp : 0 < p) (hq : 0 < q) :
    p * 2 ^ (if q * 2 ^ ilog2 p ≤ p * 2 ^ ilog2 q then ilog2 q else ilog2 q + 1)
      < q * 2 ^ (ilog2 p + 1) := by
  by_cases h : q * 2 ^ ilog2 p ≤ p * 2 ^ ilog2 q
  · rw [if_pos h]
    have h1 := (ilog2_spec p hp).2
    have h2 := (ilog2_spec q hq).1
    calc p * 2 ^ ilog2 q < 2 ^ (ilog2 p + 1) * 2 ^ ilog2 q :=
          Nat.mul_lt_mul_of_pos_right h1 (by positivity)
      _ ≤ 2 ^ (ilog2 p + 1) * q := Nat.mul_le_mul_left _ h2
      _ = q * 2 ^ (ilog2 p + 1) := by ring
  · rw [if_neg h]
    have h' : p * 2 ^ ilog2 q < q * 2 ^ ilog2 p := not_le.mp h
    calc p * 2 ^ (ilog2 q + 1) = (p * 2 ^ ilog2 q) * 2 := by ring
      _ < (q * 2 ^ ilog2 p) * 2 := Nat.mul_lt_mul_of_pos_right h' (by norm_num)
      _ = q * 2 ^ (ilog2 p + 1) := by ring

/-- The quotient that `round64` rounds to an integer lies in `[2^52, 2^53)`: the
result has a 53-bit significand. -/
theorem round64_normal (p q : Nat) (hp : 0 < p) (hq : 0 < q) :
    let c := if q * 2 ^ ilog2 p ≤ p * 2 ^ ilog2 q then ilog2 q else ilog2 q + 1
    let up := ilog2 p - (c + 52)
    let down := (c + 52) - ilog2 p
    2 ^ 52 * (q * 2 ^ up) ≤ p * 2 ^ down ∧ p * 2 ^ down < 2 ^ 53 * (q * 2 ^ up) :=
  ⟨scaled_ge p q (ilog2 p) _ (exponent_ok p q hp hq),
   scaled_lt p q (ilog2 p) _ (exponent_upper p q hp hq)⟩

/-- Rounding a quotient to an integer moves it by at most one. -/
theorem rounded_near (N D : Nat) (hD : 0 < D) :
    let Q := N / D
    let R := N % D
    let n := if 2 * R < D then Q else if D < 2 * R then Q + 1 else if Q % 2 = 0 then Q else Q + 1
    n * D ≤ N + D ∧ N ≤ n * D + D := by
  intro Q R n
  have hQ : Q * D ≤ N := Nat.div_mul_le_self N D
  have hQ' : N < (Q + 1) * D := by
    have := Nat.lt_succ_iff.mpr (le_refl (N / D))
    exact (Nat.div_lt_iff_lt_mul hD).mp this
  have hn : n = Q ∨ n = Q + 1 := by
    simp only [n]
    split_ifs <;> simp
  rcases hn with e | e <;> rw [e] <;> constructor <;> nlinarith

/-- Relative error of a scaled and rounded quotient. -/
theorem value_bounds (p q n up down : Nat) (hq : 0 < q)
    (hs : 2 ^ 52 * (q * 2 ^ up) ≤ p * 2 ^ down)
    (h1 : n * (q * 2 ^ up) ≤ p * 2 ^ down + q * 2 ^ up)
    (h2 : p * 2 ^ down ≤ n * (q * 2 ^ up) + q * 2 ^ up) :
    ((n * 2 ^ up : Nat) : ℚ) / ((2 ^ down : Nat) : ℚ) ≤ (p : ℚ) / q * (1 + 1 / 2 ^ 52)
    ∧ (p : ℚ) / q * (1 - 1 / 2 ^ 52) ≤ ((n * 2 ^ up : Nat) : ℚ) / ((2 ^ down : Nat) : ℚ) := by
  have hq' : (0 : ℚ) < q := by exact_mod_cast hq
  have hU : (0 : ℚ) < (2 : ℚ) ^ up := by positivity
  have hE : (0 : ℚ) < (2 : ℚ) ^ down := by positivity
  have hs' : (2 : ℚ) ^ 52 * (q * (2 : ℚ) ^ up) ≤ p * (2 : ℚ) ^ down := by exact_mod_cast hs
  have h1' : (n : ℚ) * (q * (2 : ℚ) ^ up) ≤ p * (2 : ℚ) ^ down + q * (2 : ℚ) ^ up := by
    exact_mod_cast h1
  have h2' : (p : ℚ) * (2 : ℚ) ^ down ≤ n * (q * (2 : ℚ) ^ up) + q * (2 : ℚ) ^ up := by
    exact_mod_cast h2
  push_cast
  generalize (2 : ℚ) ^ up = U at *
  generalize (2 : ℚ) ^ down = E at *
  have hq2 : (0 : ℚ) < q * 2 ^ 52 := by positivity
  have e1 : (p : ℚ) / q * (1 + 1 / 2 ^ 52) * E = (p * E * (2 ^ 52 + 1)) / (q * 2 ^ 52) := by
    field_simp
    ring
  have e2 : (p : ℚ) / q * (1 - 1 / 2 ^ 52) * E = (p * E * (2 ^ 52 - 1)) / (q * 2 ^ 52) := by
    field_simp
    ring
  constructor
  · rw [div_le_iff₀ hE, e1, le_div_iff₀ hq2]
    nlinarith
  · rw [le_div_iff₀ hE, e2, div_le_iff₀ hq2]
    nlinarith

/-- Relative error of `round64`: the result is a fraction with a positive
denominator within a factor `1 ± 2^-52` of `p / q`. -/
theorem round64_bounds (p q : Nat) (hp : 0 < p) (hq : 0 < q) :
    0 < (round64 p q).2
    ∧ ((round64 p q).1 : ℚ) / (round64 p q).2 ≤ (p : ℚ) / q * (1 + 1 / 2 ^ 52)
    ∧ (p : ℚ) / q * (1 - 1 / 2 ^ 52) ≤ ((round64 p q).1 : ℚ) / (round64 p q).2 := by
  have hc := exponent_ok p q hp hq
  have hs := scaled_ge p q (ilog2 p) _ hc
  have hD : 0 < q * 2 ^ (ilog2 p
      - ((if q * 2 ^ ilog2 p ≤ p * 2 ^ ilog2 q then ilog2 q else ilog2 q + 1) + 52)) := by
    positivity
  have hr := rounded_near (p * 2 ^ (((if q * 2 ^ ilog2 p ≤ p * 2 ^ ilog2 q then ilog2 q
      else ilog2 q + 1) + 52) - ilog2 p)) _ hD
  refine ⟨?_, value_bounds p q _ _ _ hq hs hr.1 hr.2⟩
  show 0 < 2 ^ _
  positivity

/-- One dimension `X` scaled by the rounded ratio `1000 / M`, for `X <= M < 2^16`:
the truncated product is the exact quotient `1000 * X / M` or one less, and it
is exact when `M` does not divide `1000 * X`. -/
theorem scaled_dim (X M : Nat) (hX : 1 ≤ X) (hXM : X ≤ M) (hM : M ≤ 65535) :
    (round64 (X * (round64 1000 M).1) (round64 1000 M).2).1
        / (round64 (X * (round64 1000 M).1) (round64 1000 M).2).2 ≤ 1000 * X / M
    ∧ 1000 * X / M
        ≤ (round64 (X * (round64 1000 M).1) (round64 1000 M).2).1
          / (round64 (X * (round64 1000 M).1) (round64 1000 M).2).2 + 1
    ∧ ((1000 * X) % M ≠ 0 →
        (round64 (X * (round64 1000 M).1) (round64 1000 M).2).1
          / (round64 (X * (round64 1000 M).1) (round64 1000 M).2).2 = 1000 * X / M)
    ∧ 1000 * X / M ≤ 1000 := by
  have hM0 : 0 < M := by omega
  obtain ⟨hr2, hrU, hrL⟩ := round64_bounds 1000 M (by norm_num) hM0
  generalize round64 1000 M = r at *
  have hMq : (0 : ℚ) < M := by exact_mod_cast hM0
  have hXq : (1 : ℚ) ≤ X := by exact_mod_cast hX
  have hXMq : (X : ℚ) ≤ M := by exact_mod_cast hXM
  have hMq' : (M : ℚ) ≤ 65535 := by exact_mod_cast hM
  have hr2q : (0 : ℚ) < r.2 := by exact_mod_cast hr2
  -- the rounded ratio is positive
  have hrv : (0 : ℚ) < (r.1 : ℚ) / r.2 := by
    have : (0 : ℚ) < ((1000 : ℕ) : ℚ) / M * (1 - 1 / 2 ^ 52) := by
      apply mul_pos
      · positivity
      · norm_num
    linarith
  have hr1 : 0 < r.1 := by
    by_contra h0
    have : r.1 = 0 := by omega
    rw [this] at hrv
    simp at hrv
  obtain ⟨hw2, hwU, hwL⟩ := round64_bounds (X * r.1) r.2 (by positivity) hr2
  generalize round64 (X * r.1) r.2 = w at *
  have hw2q : (0 : ℚ) < w.2 := by exact_mod_cast hw2
  -- the exact quotient
  have hk1 : ((1000 * X / M : ℕ) : ℚ) * M ≤ 1000 * X := by
    exact_mod_cast Nat.div_mul_le_self (1000 * X) M
  have hk2 : (1000 : ℚ) * X + 1 ≤ (((1000 * X / M : ℕ) : ℚ) + 1) * M := by
    have := Nat.lt_div_mul_add (a := 1000 * X) hM0
    have h' : 1000 * X + 1 ≤ (1000 * X / M + 1) * M := by
      rw [Nat.add_mul, Nat.one_mul]; omega
    exact_mod_cast h'
  have hk3 : 1000 * X / M ≤ 1000 := by
    apply Nat.div_le_of_le_mul
    nlinarith
  have hk4 : (1000 * X) % M ≠ 0 → ((1000 * X / M : ℕ) : ℚ) * M + 1 ≤ 1000 * X := by
    intro hrem
    have := Nat.div_add_mod (1000 * X) M
    have h' : 1000 * X / M * M + 1 ≤ 1000 * X := by
      rw [Nat.mul_comm]; omega
    exact_mod_cast h'
  generalize 1000 * X / M = k at *
  -- the truncated product
  have hd1 : (((w.1 / w.2 : ℕ)) : ℚ) * w.2 ≤ w.1 := by
    exact_mod_cast Nat.div_mul_le_self w.1 w.2
  have hd2 : (w.1 : ℚ) + 1 ≤ (((w.1 / w.2 : ℕ) : ℚ) + 1) * w.2 := by
    have := Nat.lt_div_mul_add (a := w.1) hw2
    have h' : w.1 + 1 ≤ (w.1 / w.2 + 1) * w.2 := by
      rw [Nat.add_mul, Nat.one_mul]; omega
    exact_mod_cast h'
  generalize w.1 / w.2 = d at *
  have hXr : (((X * r.1 : ℕ)) : ℚ) / r.2 = X * ((r.1 : ℚ) / r.2) := by
    push_cast; ring
  have h1000 : ((1000 : ℕ) : ℚ) = 1000 := by norm_num
  rw [hXr] at hwU hwL
  rw [h1000] at hrU hrL
  generalize (r.1 : ℚ) / r.2 = rv at *
  have hwvd : (d : ℚ) ≤ (w.1 : ℚ) / w.2 := (le_div_iff₀ hw2q).2 hd1
  have hwvd' : (w.1 : ℚ) / w.2 < d + 1 := by
    rw [div_lt_iff₀ hw2q]; linarith
  generalize (w.1 : ℚ) / w.2 = wv at *
  -- the exact quotient as a rational
  have hy0 : (0 : ℚ) < 1000 / M := by positivity
  have hy1 : (1000 : ℚ) * X / M ≤ 1000 := by
    rw [div_le_iff₀ hMq]; nlinarith
  have hyk : (k : ℚ) ≤ 1000 * X / M := (le_div_iff₀ hMq).2 hk1
  have hinv : (1 : ℚ) / 65535 ≤ 1 / M := by
    apply one_div_le_one_div_of_le hMq hMq'
  have hyk2 : (1000 : ℚ) * X / M ≤ k + 1 - 1 / M := by
    rw [div_le_iff₀ hMq]
    have : ((k : ℚ) + 1 - 1 / M) * M = (k + 1) * M - 1 := by
      field_simp
    rw [this]; linarith
  have hU : wv ≤ 1000 * X / M * (1 + 1 / 2 ^ 52) ^ 2 := by
    calc wv ≤ (X : ℚ) * rv * (1 + 1 / 2 ^ 52) := hwU
      _ ≤ (X : ℚ) * (1000 / M * (1 + 1 / 2 ^ 52)) * (1 + 1 / 2 ^ 52) := by
          apply mul_le_mul_of_nonneg_right _ (by norm_num)
          apply mul_le_mul_of_nonneg_left hrU (by positivity)
      _ = 1000 * X / M * (1 + 1 / 2 ^ 52) ^ 2 := by ring
  have hL : 1000 * X / M * (1 - 1 / 2 ^ 52) ^ 2 ≤ wv := by
    calc (1000 : ℚ) * X / M * (1 - 1 / 2 ^ 52) ^ 2
        = (X : ℚ) * (1000 / M * (1 - 1 / 2 ^ 52)) * (1 - 1 / 2 ^ 52) := by ring
      _ ≤ (X : ℚ) * rv * (1 - 1 / 2 ^ 52) := by
          apply mul_le_mul_of_nonneg_right _ (by norm_num)
          apply mul_le_mul_of_nonneg_left hrL (by positivity)
      _ ≤ wv := hwL
  have hU' : wv < 1000 * X / M + 1 / 2 ^ 40 := by
    have h1 : 1000 * (X : ℚ) / M * ((1 + 1 / 2 ^ 52) ^ 2 - 1)
        ≤ 1000 * ((1 + 1 / 2 ^ 52) ^ 2 - 1) :=
      mul_le_mul_of_nonneg_right hy1 (by norm_num)
    have h2 : (1000 : ℚ) * ((1 + 1 / 2 ^ 52) ^ 2 - 1) < 1 / 2 ^ 40 := by norm_num
    linarith
  have hL' : 1000 * X / M - 1 / 2 ^ 40 < wv := by
    have h1 : 1000 * (X : ℚ) / M * (1 - (1 - 1 / 2 ^ 52) ^ 2)
        ≤ 1000 * (1 - (1 - 1 / 2 ^ 52) ^ 2) :=
      mul_le_mul_of_nonneg_right hy1 (by norm_num)
    have h2 : (1000 : ℚ) * (1 - (1 - 1 / 2 ^ 52) ^ 2) < 1 / 2 ^ 40 := by norm_num
    linarith
  have hδ : (1 : ℚ) / 2 ^ 40 < 1 / 65535 := by norm_num
  refine ⟨?_, ?_, ?_, hk3⟩
  · have h : (d : ℚ) < k + 1 := by linarith
    have h' : d < k + 1 := by exact_mod_cast h
    omega
  · have h : (k : ℚ) < d + 2 := by linarith
    have h' : k < d + 2 := by exact_mod_cast h
    omega
  · intro hrem
    have h4 := hk4 hrem
    have hy3 : (k : ℚ) + 1 / M ≤ 1000 * X / M := by
      rw [le_div_iff₀ hMq]
      have : ((k : ℚ) + 1 / M) * M = k * M + 1 := by field_simp
      rw [this]; linarith
    have h : (k : ℚ) < d + 1 := by linarith
    have h' : k < d + 1 := by exact_mod_cast h
    have h2 : (d : ℚ) < k + 1 := by linarith
    have h2' : d < k + 1 := by exact_mod_cast h2
    omega

/-- The exact floor of `X * (1000 / M)` is the integer quotient. -/
theorem floor_scaled (X M : Nat) : ⌊(X : ℚ) * (1000 / (M : ℚ))⌋₊ = 1000 * X / M := by
  have e : (X : ℚ) * (1000 / (M : ℚ)) = ((1000 * X : ℕ) : ℚ) / ((M : ℕ) : ℚ) := by
    push_cast; ring
  rw [e, Nat.floor_div_eq_div]

/-- The exact target size in integer arithmetic. -/
theorem specDims_eq (W H : Nat) :
    specDims W H = (1000 * W / (if H > W then H else W), 1000 * H / (if H > W then H else W)) := by
  unfold specDims
  by_cases hp : H > W
  · simp only [hp, if_true, floor_scaled]
  · simp only [hp, if_false, floor_scaled]

/-- The computed target size by the size of the longer side. -/
theorem resizeDims_eq (W H : Nat) :
    resizeDims W H =
      ((round64 (W * (round64 1000 (if H > W then H else W)).1)
          (round64 1000 (if H > W then H else W)).2).1
        / (round64 (W * (round64 1000 (if H > W then H else W)).1)
          (round64 1000 (if H > W then H else W)).2).2,
       (round64 (H * (round64 1000 (if H > W then H else W)).1)
          (round64 1000 (if H > W then H else W)).2).1
        / (round64 (H * (round64 1000 (if H > W then H else W)).1)
          (round64 1000 (if H > W then H else W)).2).2) := by
  unfold resizeDims
  by_cases hp : H > W
  · simp [hp]
  · simp [hp]

/-- The two sizes of the specification's scenarios. -/
theorem resizeDims_scenarios :
    resizeDims 4000 2000 = (1000, 500) ∧ resizeDims 800 2400 = (333, 1000) := by
  decide

/-- C6, counterexample: a 19x19 image is given the target size 999x999 and a
1062x531 image the size 999x499, while `⌊W * (1000 / W)⌋` is 1000 for both and
`⌊531 * (1000 / 1062)⌋` is 500: the binary64 quotient is rounded down and its
product with the longer side is rounded to the double just below 1000. -/
theorem resizeDims_below_exact :
    resizeDims 19 19 = (999, 999) ∧ specDims 19 19 = (1000, 1000)
    ∧ resizeDims 1062 531 = (999, 499) ∧ specDims 1062 531 = (1000, 500) := by
  refine ⟨by decide, ?_, by decide, ?_⟩
  · rw [specDims_eq]; decide
  · rw [specDims_eq]; decide

/-- C6, amended: for a decoded image of width and height between 1 and 65535, the
target dimensions (the truncated binary64 products of each side with the
binary64 ratio) fit the 1000x1000 box, each is the exact `⌊side * ratio⌋` or one
less, and each is the exact value when the longer side does not divide 1000
times that side. -/
theorem resizeDims_near_exact (W H : Nat) (hW : 1 ≤ W) (hH : 1 ≤ H)
    (hW' : W ≤ 65535) (hH' : H ≤ 65535) :
    max (resizeDims W H).1 (resizeDims W H).2 ≤ 1000
    ∧ (resizeDims W H).1 ≤ (specDims W H).1 ∧ (specDims W H).1 ≤ (resizeDims W H).1 + 1
    ∧ (resizeDims W H).2 ≤ (specDims W H).2 ∧ (specDims W H).2 ≤ (resizeDims W H).2 + 1
    ∧ ((1000 * W) % max W H ≠ 0 → (resizeDims W H).1 = (specDims W H).1)
    ∧ ((1000 * H) % max W H ≠ 0 → (resizeDims W H).2 = (specDims W H).2) := by
  rw [resizeDims_eq, specDims_eq]
  by_cases hp : H > W
  · have hmax : max W H = H := max_eq_right (le_of_lt hp)
    simp only [hp, if_true, hmax]
    obtain ⟨a1, a2, a3, a4⟩ := scaled_dim W H hW (le_of_lt hp) hH'
    obtain ⟨b1, b2, b3, b4⟩ := scaled_dim H H hH (le_refl H) hH'
    exact ⟨max_le (le_trans a1 a4) (le_trans b1 b4), a1, a2, b1, b2, a3, b3⟩
  · have hle : H ≤ W := not_lt.mp hp
    have hmax : max W H = W := max_eq_left hle
    simp only [hp, if_false, hmax]
    obtain ⟨a1, a2, a3, a4⟩ := scaled_dim W W hW (le_refl W) hW'
    obtain ⟨b1, b2, b3, b4⟩ := scaled_dim H W hH hle hW'
    exact ⟨max_le (le_trans a1 a4) (le_trans b1 b4), a1, a2, b1, b2, a3, b3⟩

/-- Witness for C6: the 4000x2000 image of the specification's scenario. -/
theorem resizeDims_near_exact_witness :
    max (resizeDims 4000 2000).1 (resizeDims 4000 2000).2 ≤ 1000
    ∧ (resizeDims 4000 2000).1 ≤ (specDims 4000 2000).1
    ∧ (specDims 4000 2000).1 ≤ (resizeDims 4000 2000).1 + 1
    ∧ (resizeDims 4000 2000).2 ≤ (specDims 4000 2000).2
    ∧ (specDims 4000 2000).2 ≤ (resizeDims 4000 2000).2 + 1
    ∧ ((1000 * 4000) % max 4000 2000 ≠ 0 → (resizeDims 4000 2000).1 = (specDims 4000 2000).1)
    ∧ ((1000 * 2000) % max 4000 2000 ≠ 0 → (resizeDims 4000 2000).2 = (specDims 4000 2000).2) :=
  resizeDims_near_exact 4000 2000 (by decide) (by decide) (by decide) (by decide)

end Klaus
